import Mathlib

/-!
Shallow embedding of the core game engine of the Memory-Game repository
(`src/memory-game/src/App.js`): the shuffler, deck construction in
`startNewGame`, the `flipCard` reveal logic, the timeout resolution body,
the `allMatched` completion predicate, and the score computation.

Modelling conventions:
- `Math.random()` is abstracted as an explicit key function `Nat → Nat`
  assigning a sort key to each position; JS `Array.prototype.sort` with the
  comparator `(a, b) => a.sort - b.sort` is a stable sort ascending by key,
  modelled by `List.insertionSort` (stable, structurally recursive).
- React state cells (`cards`, `flipped`, `matched`, `disabled`, `moves`)
  become the fields of `GameState`; a `setX` call becomes a functional update.
- The `setTimeout` body inside `flipCard` is the separate function `resolve`:
  the closure captures `[...flipped, index]`, which is exactly the `flipped`
  field of the state produced by the synchronous part of `flipCard`, so
  running `resolve` on that state reproduces the timeout's effect.
- JS array indexing `cards[i]` yields `undefined` out of bounds (including
  negative indices), modelled by `lookupTok : List String → Int → Option String`
  returning `none`; the `===` comparison in the match check becomes equality
  of `Option String` (so `undefined === undefined` is `none == none = true`).
-/

namespace MemoryGame

/-- JS `shuffleArray`: pair each value with a random sort key, sort by the key,
extract the values. The randomness is abstracted as the `key` function on
positions. -/
def shuffleArray {α : Type} (key : Nat → Nat) (arr : List α) : List α :=
  (List.insertionSort (fun a b => a.1 ≤ b.1)
    (arr.enum.map (fun p => (key p.1, p.2)))).map Prod.snd

/-- The difficulty selector of the app. -/
inductive Difficulty
  | easy
  | medium
  | hard
deriving DecidableEq

/-- JS `difficultyMultiplier`: duplicates per emoji. -/
def difficultyMultiplier : Difficulty → Nat
  | .easy => 2
  | .medium => 3
  | .hard => 4

/-- The React state cells of the component that the engine reads and writes. -/
structure GameState where
  cards : List String
  flipped : List Int
  matched : List Int
  disabled : Bool
  moves : Nat
deriving DecidableEq, Repr

/-- JS `cards[i]`: `undefined` (here `none`) for a negative or too-large index. -/
def lookupTok (cards : List String) (i : Int) : Option String :=
  if i < 0 then none else cards.get? i.toNat

/-- JS `startNewGame(size, diff)`. Returns `none` when the pool is empty
(the early `return` guard); otherwise the freshly initialised state. The two
`shuffleArray` calls receive their own key functions. -/
def startNewGame (poolKey deckKey : Nat → Nat) (emojiList : List String)
    (size : Nat) (diff : Difficulty) : Option GameState :=
  if emojiList.length = 0 then none
  else
    let mult := difficultyMultiplier diff
    let totalCards := size * size
    let adjustedTotal := totalCards - totalCards % mult
    let uniqueNeeded := adjustedTotal / mult
    let selectedEmojis := (shuffleArray poolKey emojiList).take uniqueNeeded
    let doubled := selectedEmojis.flatMap (fun e => List.replicate mult e)
    let shuffledCards := shuffleArray deckKey doubled
    some { cards := shuffledCards, flipped := [], matched := [],
           disabled := false, moves := 0 }

/-- Synchronous part of JS `flipCard(index)`: the guard, the append to
`flipped`, and—when the group completes—the lock and the move increment.
`mult` is `difficultyMultiplier[difficulty]`. -/
def flipCard (mult : Nat) (s : GameState) (idx : Int) : GameState :=
  if s.disabled || s.flipped.contains idx || s.matched.contains idx then s
  else if s.flipped.length == mult - 1 then
    { s with flipped := s.flipped ++ [idx], disabled := true,
             moves := s.moves + 1 }
  else
    { s with flipped := s.flipped ++ [idx] }

/-- The body of the `setTimeout` callback scheduled by `flipCard`: compare the
tokens at the revealed indices; on a full match move them into `matched`;
either way clear `flipped` and release the lock. -/
def resolve (s : GameState) : GameState :=
  let flippedEmojis := s.flipped.map (lookupTok s.cards)
  let allMatch := flippedEmojis.all (fun e => e == flippedEmojis.headD none)
  { s with
    matched := if allMatch then s.matched ++ s.flipped else s.matched,
    flipped := [],
    disabled := false }

/-- JS `allMatched = matched.length === cards.length && cards.length > 0`. -/
def allMatched (s : GameState) : Bool :=
  s.matched.length == s.cards.length && decide (0 < s.cards.length)

/-- The score computation of the completion effect:
`ideal = cards.length / mult; Math.max(0, 100 - (moves - ideal) * 5)`.
(In the app the deck length is always divisible by `mult`, so `Nat` division
agrees with the JS arithmetic.) -/
def scoreFn (moves deckLen mult : Nat) : Int :=
  max 0 (100 - ((moves : Int) - ((deckLen / mult : Nat) : Int)) * 5)

/-- An index JS would consider outside the deck. -/
def outOfRange (cards : List String) (i : Int) : Prop :=
  i < 0 ∨ (cards.length : Int) ≤ i

instance (cards : List String) (i : Int) : Decidable (outOfRange cards i) := by
  unfold outOfRange; infer_instance

/-- The session invariants of the spec, at rest: revealed and matched are
disjoint, and the size of matched is a multiple of the group size. -/
def SessionInv (mult : Nat) (s : GameState) : Prop :=
  (∀ i ∈ s.flipped, i ∉ s.matched) ∧ mult ∣ s.matched.length

theorem shuffleArray_perm {α : Type} (key : Nat → Nat) (arr : List α) :
    (shuffleArray key arr).Perm arr := by
  unfold shuffleArray
  have h := (List.perm_insertionSort (fun a b : Nat × α => a.1 ≤ b.1)
    (arr.enum.map (fun p => (key p.1, p.2)))).map Prod.snd
  refine h.trans ?_
  rw [List.map_map]
  have : (Prod.snd ∘ fun p : Nat × α => (key p.1, p.2)) = Prod.snd := rfl
  rw [this, List.enum_map_snd]

/-- The reveal guard of `flipCard`, stated with membership: a locked state or a
repeated index returns the state unchanged. -/
theorem flipCard_guard (mult : Nat) (s : GameState) (idx : Int)
    (h : s.disabled = true ∨ idx ∈ s.flipped ∨ idx ∈ s.matched) :
    flipCard mult s idx = s := by
  unfold flipCard
  have : (s.disabled || s.flipped.contains idx || s.matched.contains idx) = true := by
    rcases h with h | h | h <;> simp [h]
  rw [if_pos this]

/-- An accepted reveal: the guard fails, so the index is appended and, exactly
when the group completes, the state locks and the move counter ticks. -/
theorem flipCard_accepted (mult : Nat) (s : GameState) (idx : Int)
    (hd : s.disabled = false) (hf : idx ∉ s.flipped) (hm : idx ∉ s.matched) :
    flipCard mult s idx =
      if s.flipped.length = mult - 1 then
        { s with flipped := s.flipped ++ [idx], disabled := true,
                 moves := s.moves + 1 }
      else
        { s with flipped := s.flipped ++ [idx] } := by
  unfold flipCard
  rw [if_neg (by simpa using ⟨⟨hd, hf⟩, hm⟩)]
  by_cases h : s.flipped.length = mult - 1
  · simp [h]
  · simp [h]

theorem length_flatMap_replicate (m : Nat) (l : List String) :
    (l.flatMap (fun e => List.replicate m e)).length = m * l.length := by
  induction l with
  | nil => simp
  | cons e l ih =>
    simp [List.flatMap_cons, ih, Nat.mul_succ, Nat.mul_add, Nat.add_comm]

theorem count_flatMap_replicate_of_not_mem (m : Nat) (l : List String)
    (t : String) (ht : t ∉ l) :
    (l.flatMap (fun e => List.replicate m e)).count t = 0 := by
  induction l with
  | nil => simp
  | cons e l ih =>
    simp only [List.flatMap_cons, List.count_append]
    have hne : t ≠ e := fun h => ht (h ▸ List.mem_cons_self e l)
    rw [List.count_replicate, if_neg (by simpa using hne.symm),
      ih (fun h => ht (List.mem_cons_of_mem e h))]

theorem count_flatMap_replicate (m : Nat) (l : List String)
    (hnd : l.Nodup) (t : String) (ht : t ∈ l) :
    (l.flatMap (fun e => List.replicate m e)).count t = m := by
  induction l with
  | nil => cases ht
  | cons e l ih =>
    simp only [List.flatMap_cons, List.count_append]
    rcases List.mem_cons.mp ht with h | h
    · subst h
      rw [List.count_replicate, if_pos (by simp),
        count_flatMap_replicate_of_not_mem m l t (List.nodup_cons.mp hnd).1,
        Nat.add_zero]
    · have hne : t ≠ e := by
        rintro rfl
        exact (List.nodup_cons.mp hnd).1 h
      rw [List.count_replicate, if_neg (by simpa using hne.symm),
        ih (List.nodup_cons.mp hnd).2 h, Nat.zero_add]

theorem mem_flatMap_replicate (m : Nat) (hm : 1 ≤ m) (l : List String)
    (t : String) : t ∈ l.flatMap (fun e => List.replicate m e) ↔ t ∈ l := by
  rw [List.mem_flatMap]
  constructor
  · rintro ⟨e, he, ht⟩
    rwa [List.eq_of_mem_replicate ht]
  · intro ht
    exact ⟨t, ht, List.mem_replicate.mpr ⟨by omega, rfl⟩⟩

theorem toFinset_flatMap_replicate (m : Nat) (hm : 1 ≤ m) (l : List String) :
    (l.flatMap (fun e => List.replicate m e)).toFinset = l.toFinset := by
  ext t
  simp only [List.mem_toFinset]
  exact mem_flatMap_replicate m hm l t

/-- C5: `shuffleArray` returns a permutation of the same multiset — sorted
output multiset equals sorted input multiset, length is preserved and every
token keeps its multiplicity — and, being a pure total function of its input,
it neither mutates the input nor fails. -/
theorem C5_shuffle_permutation (key : Nat → Nat) (arr : List String) :
    (shuffleArray key arr).Perm arr ∧
    (shuffleArray key arr).length = arr.length ∧
    ∀ t : String, (shuffleArray key arr).count t = arr.count t := by
  have h := shuffleArray_perm key arr
  exact ⟨h, h.length_eq, fun t => h.count_eq t⟩

/-- C4 (amended): the score is 100 at the ideal move count and 95 one move
above it, and is never negative; it is bounded by 100 only for move counts at
or above the ideal — the code has no upper clamp (`Math.max(0, …)` only), so
for `moveCount` below the ideal the result exceeds 100. -/
theorem C4_score_amended (moves deckLen mult : Nat) :
    scoreFn (deckLen / mult) deckLen mult = 100 ∧
    scoreFn (deckLen / mult + 1) deckLen mult = 95 ∧
    0 ≤ scoreFn moves deckLen mult ∧
    (deckLen / mult ≤ moves → scoreFn moves deckLen mult ≤ 100) := by
  unfold scoreFn
  push_cast
  refine ⟨?_, ?_, ?_, ?_⟩
  · generalize ((deckLen / mult : Nat) : Int) = d
    omega
  · generalize ((deckLen / mult : Nat) : Int) = d
    omega
  · exact le_max_left 0 _
  · intro h
    have h' : ((deckLen / mult : Nat) : Int) ≤ (moves : Int) := by exact_mod_cast h
    generalize hd : ((deckLen / mult : Nat) : Int) = d at h' ⊢
    omega

/-- C4 counterexample: with `deckLength = 16`, `groupSize = 2` (ideal 8), the
move count 0 is non-negative yet scores 140 — the claim's upper bound of 100
for every non-negative move count fails on the code. -/
theorem C4_score_counterexample : 100 < scoreFn 0 16 2 := by decide

/-- C4 witness. -/
theorem C4_score_witness : 0 ≤ scoreFn 9 16 2 ∧ scoreFn 9 16 2 ≤ 100 :=
  ⟨(C4_score_amended 9 16 2).2.2.1, (C4_score_amended 9 16 2).2.2.2 (by decide)⟩

/-- C6 (amended): a reveal of an already-revealed index, of an already-matched
index, or issued while the lock is held is a no-op — no exception, no state
change. A reveal issued before any deck exists is *not* guarded, however: from
the fresh empty state it is accepted and the index is added to the revealed
set. -/
theorem C6_ignored_reveals_amended (mult : Nat) (s : GameState) (idx : Int)
    (hmult : 2 ≤ mult) :
    ((s.disabled = true ∨ idx ∈ s.flipped ∨ idx ∈ s.matched) →
      flipCard mult s idx = s) ∧
    (s.cards = [] → s.flipped = [] → s.matched = [] → s.disabled = false →
      flipCard mult s idx = { s with flipped := [idx] }) := by
  constructor
  · exact flipCard_guard mult s idx
  · intro hc hf hm hd
    rw [flipCard_accepted mult s idx hd (by simp [hf]) (by simp [hm])]
    rw [if_neg (by rw [hf]; simp; omega)]
    simp [hf]

/-- C6 counterexample: from the state before any deck exists (empty `cards`),
a reveal is accepted and mutates the state, contradicting the claim that it
leaves the session unchanged. -/
theorem C6_no_deck_counterexample :
    flipCard 2 ⟨[], [], [], false, 0⟩ 0 ≠ ⟨[], [], [], false, 0⟩ := by decide

/-- C6 witness. -/
theorem C6_ignored_reveals_witness :
    flipCard 2 ⟨["a", "a"], [], [], true, 0⟩ 0 = ⟨["a", "a"], [], [], true, 0⟩ :=
  (C6_ignored_reveals_amended 2 ⟨["a", "a"], [], [], true, 0⟩ 0 (by decide)).1
    (Or.inl rfl)

/-- C7: a rejected reveal never changes the move counter; an accepted reveal
grows the revealed set by one and increments the move counter exactly when the
new revealed size reaches the group size, never when it stays below it. -/
theorem C7_moveCount_increment (mult : Nat) (s : GameState) (idx : Int)
    (hmult : 1 ≤ mult) :
    ((s.disabled = true ∨ idx ∈ s.flipped ∨ idx ∈ s.matched) →
      (flipCard mult s idx).moves = s.moves) ∧
    (s.disabled = false → idx ∉ s.flipped → idx ∉ s.matched →
      (flipCard mult s idx).flipped.length = s.flipped.length + 1 ∧
      ((flipCard mult s idx).moves = s.moves + 1 ↔
        (flipCard mult s idx).flipped.length = mult) ∧
      ((flipCard mult s idx).flipped.length < mult →
        (flipCard mult s idx).moves = s.moves)) := by
  constructor
  · intro h
    rw [flipCard_guard mult s idx h]
  · intro hd hf hm
    rw [flipCard_accepted mult s idx hd hf hm]
    by_cases h : s.flipped.length = mult - 1
    · rw [if_pos h]
      refine ⟨by simp, ?_, ?_⟩ <;> simp <;> omega
    · rw [if_neg h]
      refine ⟨by simp, ?_, ?_⟩ <;> simp <;> omega

/-- C7 witness. -/
theorem C7_moveCount_witness :
    (flipCard 2 ⟨["a", "a"], [0], [], false, 0⟩ 1).moves = 0 + 1 :=
  ((C7_moveCount_increment 2 ⟨["a", "a"], [0], [], false, 0⟩ 1
    (by decide)).2 rfl (by decide) (by decide)).2.1.mpr (by decide)

/-- The `matched` field produced by the resolution, as the if-expression of the
source. -/
theorem resolve_matched_def (s : GameState) :
    (resolve s).matched =
      if (s.flipped.map (lookupTok s.cards)).all
          (fun e => e == (s.flipped.map (lookupTok s.cards)).headD none) then
        s.matched ++ s.flipped
      else s.matched := rfl

/-- The `allMatch` check of the source is exactly pairwise equality of the
looked-up tokens of the revealed indices. -/
theorem resolve_allMatch_iff (s : GameState) :
    ((s.flipped.map (lookupTok s.cards)).all
      (fun e => e == (s.flipped.map (lookupTok s.cards)).headD none)) = true ↔
    ∀ i ∈ s.flipped, ∀ j ∈ s.flipped,
      lookupTok s.cards i = lookupTok s.cards j := by
  rw [List.all_eq_true]
  constructor
  · intro h i hi j hj
    have h1 := h _ (List.mem_map_of_mem (lookupTok s.cards) hi)
    have h2 := h _ (List.mem_map_of_mem (lookupTok s.cards) hj)
    rw [beq_iff_eq] at h1 h2
    rw [h1, h2]
  · intro h e he
    rcases List.mem_map.mp he with ⟨i, hi, rfl⟩
    rcases hfe : s.flipped with _ | ⟨a, l⟩
    · rw [hfe] at hi; cases hi
    · simp only [List.map_cons, List.headD_cons]
      rw [beq_iff_eq]
      exact h i hi a (by rw [hfe]; exact List.mem_cons_self a l)

theorem resolve_matched_cases (s : GameState) :
    (resolve s).matched = s.matched ∨
    (resolve s).matched = s.matched ++ s.flipped := by
  rw [resolve_matched_def]
  split
  · exact Or.inr rfl
  · exact Or.inl rfl

theorem lookupTok_eq_none_of_outOfRange (cards : List String) (i : Int)
    (h : outOfRange cards i) : lookupTok cards i = none := by
  unfold lookupTok
  rcases h with h | h
  · rw [if_pos h]
  · rw [if_neg (by omega)]
    exact List.get?_eq_none.mpr (by omega)

/-- C3: when a completed group of `groupSize` revealed indices is resolved,
the revealed set always becomes empty and the lock is always released; if the
tokens at all revealed indices are identical every revealed index moves into
`matched`, and if at least one differs `matched` is unchanged. -/
theorem C3_group_resolution (mult : Nat) (s : GameState)
    (hlen : s.flipped.length = mult) (hmult : 1 ≤ mult) :
    ((resolve s).flipped = [] ∧ (resolve s).disabled = false ∧
      (resolve s).moves = s.moves ∧ (resolve s).cards = s.cards) ∧
    ((∀ i ∈ s.flipped, ∀ j ∈ s.flipped,
        lookupTok s.cards i = lookupTok s.cards j) →
      (resolve s).matched = s.matched ++ s.flipped ∧
      ∀ i ∈ s.flipped, i ∈ (resolve s).matched) ∧
    ((∃ i ∈ s.flipped, ∃ j ∈ s.flipped,
        lookupTok s.cards i ≠ lookupTok s.cards j) →
      (resolve s).matched = s.matched) := by
  refine ⟨⟨rfl, rfl, rfl, rfl⟩, ?_, ?_⟩
  · intro h
    have hb := (resolve_allMatch_iff s).mpr h
    have hm : (resolve s).matched = s.matched ++ s.flipped := by
      rw [resolve_matched_def, if_pos hb]
    exact ⟨hm, fun i hi => hm ▸ List.mem_append_right _ hi⟩
  · rintro ⟨i, hi, j, hj, hne⟩
    have hb : ¬((s.flipped.map (lookupTok s.cards)).all
        (fun e => e == (s.flipped.map (lookupTok s.cards)).headD none)) = true := by
      intro hb
      exact hne ((resolve_allMatch_iff s).mp hb i hi j hj)
    rw [resolve_matched_def, if_neg hb]

/-- C3 witness. -/
theorem C3_group_resolution_witness :
    (resolve ⟨["a", "a"], [0, 1], [], true, 1⟩).matched = [] ++ [0, 1] :=
  ((C3_group_resolution 2 ⟨["a", "a"], [0, 1], [], true, 1⟩ (by decide)
    (by decide)).2.1 (by decide)).1

/-- C10: out-of-bounds reveal indices are not rejected — an index below 0 or
at or beyond the deck length looks up no token (`none`), an otherwise
acceptable reveal of any such index is still added to the revealed set, and
when every revealed index is out of range the (vacuously equal, absent)
tokens count as a match and the out-of-range indices are committed into
`matched`. -/
theorem C10_out_of_range_reveals (mult : Nat) (s : GameState) (idx : Int) :
    (outOfRange s.cards idx → lookupTok s.cards idx = none) ∧
    (s.disabled = false → idx ∉ s.flipped → idx ∉ s.matched →
      (flipCard mult s idx).flipped = s.flipped ++ [idx]) ∧
    ((∀ i ∈ s.flipped, outOfRange s.cards i) →
      (resolve s).matched = s.matched ++ s.flipped) := by
  refine ⟨lookupTok_eq_none_of_outOfRange s.cards idx, ?_, ?_⟩
  · intro hd hf hm
    rw [flipCard_accepted mult s idx hd hf hm]
    by_cases h : s.flipped.length = mult - 1
    · rw [if_pos h]
    · rw [if_neg h]
  · intro h
    have hb : ((s.flipped.map (lookupTok s.cards)).all
        (fun e => e == (s.flipped.map (lookupTok s.cards)).headD none)) = true := by
      rw [List.all_eq_true]
      intro e he
      rcases List.mem_map.mp he with ⟨i, hi, rfl⟩
      have h1 : lookupTok s.cards i = none :=
        lookupTok_eq_none_of_outOfRange s.cards i (h i hi)
      have h2 : (s.flipped.map (lookupTok s.cards)).headD none = none := by
        rcases hfe : s.flipped with _ | ⟨a, l⟩
        · rfl
        · simp only [List.map_cons, List.headD_cons]
          exact lookupTok_eq_none_of_outOfRange s.cards a
            (h a (by rw [hfe]; exact List.mem_cons_self a l))
      rw [h1, h2]
      rfl
    rw [resolve_matched_def, if_pos hb]

/-- C10 witness. -/
theorem C10_out_of_range_witness :
    (resolve ⟨["a"], [5, 7], [], true, 1⟩).matched = [] ++ [5, 7] :=
  (C10_out_of_range_reveals 2 ⟨["a"], [5, 7], [], true, 1⟩ 0).2.2 (by decide)

/-- C9: starting a session establishes the invariants (empty disjoint sets, a
matched size of zero — a multiple of any group size — and a zero move count);
an accepted or rejected reveal and a group resolution each preserve the
disjointness of revealed and matched and the divisibility of the matched size
by the group size, and never decrease the move counter. -/
theorem C9_session_invariants (poolKey deckKey : Nat → Nat) (pool : List String)
    (size : Nat) (diff : Difficulty) (mult : Nat) (s : GameState) (idx : Int)
    (st : GameState) :
    (startNewGame poolKey deckKey pool size diff = some st →
      SessionInv mult st ∧ st.moves = 0) ∧
    (SessionInv mult s →
      SessionInv mult (flipCard mult s idx) ∧
      s.moves ≤ (flipCard mult s idx).moves) ∧
    (SessionInv mult s → s.flipped.length = mult →
      SessionInv mult (resolve s) ∧ s.moves ≤ (resolve s).moves) := by
  refine ⟨?_, ?_, ?_⟩
  · intro h
    unfold startNewGame at h
    by_cases hp : pool.length = 0
    · rw [if_pos hp] at h; cases h
    · rw [if_neg hp] at h
      have he := Option.some.inj h
      subst he
      refine ⟨⟨?_, ?_⟩, rfl⟩
      · intro i hi
        exact absurd hi (List.not_mem_nil i)
      · exact dvd_zero mult
  · intro hinv
    by_cases hg : s.disabled = true ∨ idx ∈ s.flipped ∨ idx ∈ s.matched
    · rw [flipCard_guard mult s idx hg]
      exact ⟨hinv, le_refl _⟩
    · push_neg at hg
      obtain ⟨hd, hf, hm⟩ := hg
      have hd' : s.disabled = false := by simpa using hd
      rw [flipCard_accepted mult s idx hd' hf hm]
      by_cases h : s.flipped.length = mult - 1
      · rw [if_pos h]
        refine ⟨⟨?_, hinv.2⟩, Nat.le_succ _⟩
        intro i hi
        rcases List.mem_append.mp hi with hi | hi
        · exact hinv.1 i hi
        · rw [List.mem_singleton.mp hi]
          exact hm
      · rw [if_neg h]
        refine ⟨⟨?_, hinv.2⟩, le_refl _⟩
        intro i hi
        rcases List.mem_append.mp hi with hi | hi
        · exact hinv.1 i hi
        · rw [List.mem_singleton.mp hi]
          exact hm
  · intro hinv hlen
    refine ⟨⟨?_, ?_⟩, le_refl _⟩
    · intro i hi
      exact absurd hi (List.not_mem_nil i)
    · rcases resolve_matched_cases s with hc | hc
      · rw [hc]; exact hinv.2
      · rw [hc, List.length_append, hlen]
        exact dvd_add hinv.2 (dvd_refl mult)

/-- C9 witness. -/
theorem C9_session_invariants_witness :
    SessionInv 2 (flipCard 2 ⟨["a", "a"], [], [], false, 0⟩ 0) ∧
    (0 : Nat) ≤ (flipCard 2 ⟨["a", "a"], [], [], false, 0⟩ 0).moves :=
  (C9_session_invariants (fun i => i) (fun i => i) ["a"] 4 Difficulty.easy 2
    ⟨["a", "a"], [], [], false, 0⟩ 0 ⟨["a", "a"], [], [], false, 0⟩).2.1
    ⟨fun i hi => absurd hi (by simp), dvd_zero 2⟩

theorem adjusted_eq (n m : Nat) (hm : 0 < m) : n - n % m = m * (n / m) := by
  have h := Nat.mod_add_div n m
  omega

theorem adjusted_div (n m : Nat) (hm : 0 < m) : (n - n % m) / m = n / m := by
  rw [adjusted_eq n m hm, Nat.mul_div_cancel_left _ hm]

theorem startNewGame_isSome (poolKey deckKey : Nat → Nat) (pool : List String)
    (size : Nat) (diff : Difficulty) (hne : pool.length ≠ 0) :
    ∃ st, startNewGame poolKey deckKey pool size diff = some st := by
  unfold startNewGame
  rw [if_neg hne]
  exact ⟨_, rfl⟩

theorem startNewGame_cards_length (poolKey deckKey : Nat → Nat)
    (pool : List String) (size : Nat) (diff : Difficulty) (st : GameState)
    (h : startNewGame poolKey deckKey pool size diff = some st) :
    st.cards.length = difficultyMultiplier diff *
      min ((size * size - (size * size) % difficultyMultiplier diff) /
        difficultyMultiplier diff) pool.length := by
  unfold startNewGame at h
  by_cases hp : pool.length = 0
  · rw [if_pos hp] at h; cases h
  · rw [if_neg hp] at h
    have he := Option.some.inj h
    subst he
    show (shuffleArray deckKey _).length = _
    rw [(shuffleArray_perm _ _).length_eq, length_flatMap_replicate,
      List.length_take, (shuffleArray_perm _ _).length_eq]

theorem startNewGame_cards_perm (poolKey deckKey : Nat → Nat)
    (pool : List String) (size : Nat) (diff : Difficulty) (st : GameState)
    (h : startNewGame poolKey deckKey pool size diff = some st) :
    st.cards.Perm
      (((shuffleArray poolKey pool).take
          ((size * size - (size * size) % difficultyMultiplier diff) /
            difficultyMultiplier diff)).flatMap
        (fun e => List.replicate (difficultyMultiplier diff) e)) := by
  unfold startNewGame at h
  by_cases hp : pool.length = 0
  · rw [if_pos hp] at h; cases h
  · rw [if_neg hp] at h
    have he := Option.some.inj h
    subst he
    exact shuffleArray_perm _ _

/-- C8 (amended): the session is complete exactly when the matched size equals
the deck length *and* the deck is nonempty (the code's `allMatched` demands
`cards.length > 0`); once complete — for a session whose matched list holds
distinct in-bounds indices, as every reachable session does — every reveal of
an in-bounds index is a no-op. (A reveal of an out-of-range index is still
accepted even when complete.) -/
theorem C8_complete_amended (mult : Nat) (s : GameState) (idx : Int) :
    (allMatched s = true ↔
      (s.matched.length = s.cards.length ∧ 0 < s.cards.length)) ∧
    (allMatched s = true → s.matched.Nodup →
      (∀ i ∈ s.matched, 0 ≤ i ∧ i < (s.cards.length : Int)) →
      0 ≤ idx → idx < (s.cards.length : Int) →
      flipCard mult s idx = s) := by
  have hiff : allMatched s = true ↔
      (s.matched.length = s.cards.length ∧ 0 < s.cards.length) := by
    unfold allMatched
    rw [Bool.and_eq_true, beq_iff_eq, decide_eq_true_iff]
  refine ⟨hiff, ?_⟩
  intro hall hnd hbounds hidx0 hidxlt
  have hlen : s.matched.length = s.cards.length := (hiff.mp hall).1
  have hsub : s.matched.toFinset ⊆ Finset.Ico (0 : Int) (s.cards.length : Int) := by
    intro i hi
    rw [List.mem_toFinset] at hi
    rw [Finset.mem_Ico]
    exact ⟨(hbounds i hi).1, (hbounds i hi).2⟩
  have hcard : (Finset.Ico (0 : Int) (s.cards.length : Int)).card ≤
      s.matched.toFinset.card := by
    rw [Int.card_Ico, List.toFinset_card_of_nodup hnd, hlen]
    omega
  have heq := Finset.eq_of_subset_of_card_le hsub hcard
  have hmem : idx ∈ s.matched := by
    rw [← List.mem_toFinset, heq, Finset.mem_Ico]
    exact ⟨hidx0, hidxlt⟩
  exact flipCard_guard mult s idx (Or.inr (Or.inr hmem))

/-- C8 counterexample: with an empty deck the matched size equals the deck
length yet the code's `allMatched` is false, refuting the stated "if and only
if"; and from a genuinely complete session a reveal of the out-of-range index
5 is accepted and mutates the state, refuting "every subsequent reveal is a
no-op". -/
theorem C8_complete_counterexample :
    (allMatched ⟨[], [], [], false, 0⟩ = false ∧
      (⟨[], [], [], false, 0⟩ : GameState).matched.length =
        (⟨[], [], [], false, 0⟩ : GameState).cards.length) ∧
    (allMatched ⟨["a", "a"], [], [0, 1], false, 1⟩ = true ∧
      flipCard 2 ⟨["a", "a"], [], [0, 1], false, 1⟩ 5 ≠
        ⟨["a", "a"], [], [0, 1], false, 1⟩) := by decide

/-- C8 witness. -/
theorem C8_complete_witness :
    flipCard 2 ⟨["a", "a"], [], [0, 1], false, 1⟩ 0 =
      ⟨["a", "a"], [], [0, 1], false, 1⟩ :=
  (C8_complete_amended 2 ⟨["a", "a"], [], [0, 1], false, 1⟩ 0).2
    (by decide) (by decide) (by decide) (by decide) (by decide)

/-- C2 counterexample: `gridSize = 4`, `groupSize = 2` (easy) and a pool of
only 3 unique tokens — 8 are needed — does not fail: `startNewGame` happily
returns a deck of 6 cards, strictly fewer than the 16 usable cells, i.e. a
silently under-filled deck and no `ConfigurationError` of any kind. -/
theorem C2_no_error_counterexample :
    (startNewGame (fun i => i) (fun i => i) ["a", "b", "c"] 4
      Difficulty.easy).map (fun st => st.cards.length) = some 6 ∧
    6 < 4 * 4 - (4 * 4) % 2 := by decide

/-- C2 (amended): when the pool is nonempty but smaller than the number of
unique tokens needed, deck building does not fail and raises no error: the
`slice` simply caps the selection, and `startNewGame` silently produces an
under-filled deck of length `groupSize * pool.length`, strictly below the
usable-cell count. Only an empty pool prevents a session from starting. -/
theorem C2_underfilled_deck_amended (poolKey deckKey : Nat → Nat)
    (pool : List String) (size : Nat) (diff : Difficulty)
    (hne : pool.length ≠ 0)
    (hlt : pool.length < (size * size) / difficultyMultiplier diff) :
    ∃ st, startNewGame poolKey deckKey pool size diff = some st ∧
      st.cards.length = difficultyMultiplier diff * pool.length ∧
      st.cards.length <
        size * size - (size * size) % difficultyMultiplier diff := by
  have hm : 0 < difficultyMultiplier diff := by cases diff <;> decide
  obtain ⟨st, hst⟩ := startNewGame_isSome poolKey deckKey pool size diff hne
  have hL := startNewGame_cards_length poolKey deckKey pool size diff st hst
  rw [adjusted_div _ _ hm, min_eq_right (le_of_lt hlt)] at hL
  refine ⟨st, hst, hL, ?_⟩
  rw [hL, adjusted_eq _ _ hm]
  exact Nat.mul_lt_mul_of_pos_left hlt hm

/-- C2 witness. -/
theorem C2_underfilled_deck_witness :
    ∃ st, startNewGame (fun i => i) (fun i => i) ["a", "b", "c"] 4
        Difficulty.easy = some st ∧
      st.cards.length = difficultyMultiplier Difficulty.easy * 3 ∧
      st.cards.length <
        4 * 4 - (4 * 4) % difficultyMultiplier Difficulty.easy :=
  C2_underfilled_deck_amended (fun i => i) (fun i => i) ["a", "b", "c"] 4
    Difficulty.easy (by decide) (by decide)

/-- C1: for every grid size at least 2, every difficulty (group size 2, 3 or
4), and every pool of unique tokens at least `⌊gridSize² / groupSize⌋` large,
`startNewGame` produces a deck whose length is the largest multiple of the
group size not exceeding `gridSize²` (equal to it, divisible by the group
size, at most `gridSize²`, and within one group of it), in which every token
present appears exactly `groupSize` times, and whose number of distinct tokens
is `deck.length / groupSize`. -/
theorem C1_deck_construction (poolKey deckKey : Nat → Nat) (pool : List String)
    (size : Nat) (diff : Difficulty) (hsize : 2 ≤ size) (hnd : pool.Nodup)
    (hpool : (size * size) / difficultyMultiplier diff ≤ pool.length) :
    ∃ st, startNewGame poolKey deckKey pool size diff = some st ∧
      st.cards.length =
        size * size - (size * size) % difficultyMultiplier diff ∧
      difficultyMultiplier diff ∣ st.cards.length ∧
      st.cards.length ≤ size * size ∧
      size * size < st.cards.length + difficultyMultiplier diff ∧
      (∀ t ∈ st.cards, st.cards.count t = difficultyMultiplier diff) ∧
      st.cards.toFinset.card = st.cards.length / difficultyMultiplier diff := by
  have hm2 : 2 ≤ difficultyMultiplier diff := by cases diff <;> decide
  have hm4 : difficultyMultiplier diff ≤ 4 := by cases diff <;> decide
  have hm : 0 < difficultyMultiplier diff := by omega
  have h4 : 4 ≤ size * size := by
    calc 4 = 2 * 2 := rfl
    _ ≤ size * size := Nat.mul_le_mul hsize hsize
  have hu1 : 1 ≤ (size * size) / difficultyMultiplier diff :=
    (Nat.one_le_div_iff hm).mpr (le_trans hm4 h4)
  have hne : pool.length ≠ 0 := by omega
  obtain ⟨st, hst⟩ := startNewGame_isSome poolKey deckKey pool size diff hne
  have hL := startNewGame_cards_length poolKey deckKey pool size diff st hst
  rw [adjusted_div _ _ hm, min_eq_left hpool] at hL
  have hperm := startNewGame_cards_perm poolKey deckKey pool size diff st hst
  rw [adjusted_div _ _ hm] at hperm
  have hsel_nd : ((shuffleArray poolKey pool).take
      ((size * size) / difficultyMultiplier diff)).Nodup :=
    ((shuffleArray_perm poolKey pool).nodup_iff.mpr hnd).sublist
      (List.take_sublist _ _)
  have hsel_len : ((shuffleArray poolKey pool).take
      ((size * size) / difficultyMultiplier diff)).length =
      (size * size) / difficultyMultiplier diff := by
    rw [List.length_take, (shuffleArray_perm poolKey pool).length_eq]
    exact min_eq_left hpool
  refine ⟨st, hst, ?_, ?_, ?_, ?_, ?_, ?_⟩
  · rw [hL, adjusted_eq _ _ hm]
  · rw [hL]
    exact Dvd.intro _ rfl
  · rw [hL, ← adjusted_eq _ _ hm]
    exact Nat.sub_le _ _
  · rw [hL, ← adjusted_eq _ _ hm]
    have := Nat.mod_lt (size * size) hm
    omega
  · intro t ht
    rw [hperm.count_eq]
    have htd := hperm.mem_iff.mp ht
    exact count_flatMap_replicate _ _ hsel_nd t
      ((mem_flatMap_replicate _ (by omega) _ t).mp htd)
  · rw [List.toFinset_eq_of_perm _ _ hperm,
      toFinset_flatMap_replicate _ (by omega) _,
      List.toFinset_card_of_nodup hsel_nd, hsel_len, hL,
      Nat.mul_div_cancel_left _ hm]

/-- C1 witness. -/
theorem C1_deck_construction_witness :
    ∃ st, startNewGame (fun i => i) (fun i => i)
        ["a", "b", "c", "d", "e", "f", "g", "h"] 4 Difficulty.easy = some st ∧
      st.cards.length =
        4 * 4 - (4 * 4) % difficultyMultiplier Difficulty.easy ∧
      difficultyMultiplier Difficulty.easy ∣ st.cards.length ∧
      st.cards.length ≤ 4 * 4 ∧
      4 * 4 < st.cards.length + difficultyMultiplier Difficulty.easy ∧
      (∀ t ∈ st.cards,
        st.cards.count t = difficultyMultiplier Difficulty.easy) ∧
      st.cards.toFinset.card =
        st.cards.length / difficultyMultiplier Difficulty.easy :=
  C1_deck_construction (fun i => i) (fun i => i)
    ["a", "b", "c", "d", "e", "f", "g", "h"] 4 Difficulty.easy
    (by decide) (by decide) (by decide)

end MemoryGame
